import Mathlib

/-!
Verification of the optAPM absolute-plate-motion optimisation workflow.

Shallow embedding of the orchestration logic of `Optimised_APM.py`,
`Optimised_config.py`, `objective_function.py` and
`insert_optimised_rotations_into_original_files.py`.

Machine floats are modelled by exact rationals (plus an explicit NaN marker
where NumPy produces NaN); Python exceptions are modelled by `Except String`.
External collaborators (pygplates rotation algebra, geometry statistics) are
modelled from the spec where noted; everything else is translated from the
Python source.
-/

namespace OptAPM

/-! ## Configuration (`Optimised_config.py`)

Constants for the active `data_model = 'Global_1000-0_Model_2017'` branch. -/

def data_model : String := "Global_1000-0_Model_2017"

def start_age : ℚ := 1000

def end_age : ℚ := 0

def interval : ℚ := 10

def models : ℕ := 100

def search : String := "Initial"

def search_radius : ℚ := 60

def expand_search_radius_on_ref_plate_switches : Bool := false

def tm_method : String := "pygplates"

def use_trail_age_uncertainty : Bool := true

/-- Reference plate ID part of `get_reference_params(age)` for the
`Global_1000-0_Model_2017` branch (the returned rotation filename, always
`None` in this branch, is dropped). -/
def get_reference_params (age : ℚ) : ℕ :=
  if age ≤ 550 then 701 else 101

/-! ## Age range (`Optimised_APM.py` line 105)

`age_range = np.arange(end_age + interval, start_age + interval, interval)`.
`npArange` embeds `numpy.arange` for a positive step: the element count is
the ceiling of `(stop - start) / step` and element `k` is `start + k * step`. -/

def npArange (start stop step : ℚ) : List ℚ :=
  (List.range (⌈(stop - start) / step⌉).toNat).map (fun k : ℕ => start + (k : ℚ) * step)

def age_range : List ℚ := npArange (end_age + interval) (start_age + interval) interval

/-! ## Distributed dispatch (`Optimised_APM.py` lines 283-324 and 458-471)

The mpi4py scatter partition built by the rank-0 process, and the
gather-then-flatten (`itertools.chain.from_iterable`) of the per-rank
result lists. `modifyIdx` embeds `new_x_list[i].append(item)`;
`appendEach` embeds the remainder-distribution loop
`for x_index in xrange(mpi_size * num_x_per_rank, len(x)):
new_x_list[x_index - mpi_size * num_x_per_rank].append(x[x_index])`,
walking the leftover tail of `x` while stepping the target rank. -/

def modifyIdx (g : List α → List α) : ℕ → List (List α) → List (List α)
  | _, [] => []
  | 0, l :: ls => g l :: ls
  | n + 1, l :: ls => l :: modifyIdx g n ls

def appendEach : List α → ℕ → List (List α) → List (List α)
  | [], _, ls => ls
  | a :: as, j, ls => appendEach as (j + 1) (modifyIdx (· ++ [a]) j ls)

/-- Partition of the starting-condition list `x` across `mpi_size` ranks, as
built on rank 0 before `mpi_comm.scatter`. -/
def scatterPartition (x : List α) (mpi_size : ℕ) : List (List α) :=
  if x.length < mpi_size then
    x.map (fun a => [a]) ++ List.replicate (mpi_size - x.length) []
  else
    let num_x_per_rank := x.length / mpi_size
    let new_x_list := (List.range mpi_size).map
      (fun mpi_index => ((x.drop (mpi_index * num_x_per_rank)).take num_x_per_rank))
    appendEach (x.drop (mpi_size * num_x_per_rank)) 0 new_x_list

/-- Gather to rank 0 then `list(itertools.chain.from_iterable(xopt))`. -/
def gatherFlatten (xopt : List (List β)) : List β := xopt.flatten

/-! ## Rotation algebra

Modelled from the spec: the external `RotationAlgebra` collaborator
(pygplates `FiniteRotation`) "composes/decomposes finite rotations ...
supports multiplication and inversion".  A finite rotation is modelled as a
3x3 rational orthogonal matrix; composition is matrix multiplication and
`get_inverse` is the transpose (the inverse of an orthogonal matrix). -/

abbrev FiniteRotation := Matrix (Fin 3) (Fin 3) ℚ

/-- Embeds `FiniteRotation.get_inverse()` of pygplates. -/
def get_inverse (r : FiniteRotation) : FiniteRotation := r.transpose

/-- Orthogonality on both sides: the validity predicate for a modelled
finite rotation. -/
def IsRotation (r : FiniteRotation) : Prop :=
  r.transpose * r = 1 ∧ r * r.transpose = 1

/-! ## Rotation features

A rotation feature is a `(fixed plate, moving plate, time samples)` record;
the sample list stands for `rotation_sequence.get_enabled_time_samples()`.
The rotation payload is a type parameter so that structural operations
(update, extraction) are stated independently of the algebra. -/

structure GpmlTimeSample (R : Type) where
  time : ℚ
  rotation : R
deriving DecidableEq, Repr

structure RotationFeature (R : Type) where
  fixed_plate_id : ℕ
  moving_plate_id : ℕ
  samples : List (GpmlTimeSample R)
deriving DecidableEq, Repr

/-- Test `moving_plate_id == 5 and fixed_plate_id == 0` used at
`Optimised_APM.py` lines 130, 557, `objective_function.py` line 103 and
`insert_optimised_rotations_into_original_files.py` line 62. -/
def is005 (f : RotationFeature R) : Bool :=
  decide (f.moving_plate_id = 5 ∧ f.fixed_plate_id = 0)

/-! ## Pre-campaign zeroing (`Optimised_APM.py` lines 117-173)

`origRefRel005 t` stands for
`original_rotation_model.get_rotation(t, get_reference_params(t)[0], fixed_plate_id=5)`,
the reference-plate-relative-to-005 rotation of the *original* model (an
external `RotationAlgebra` query, passed in as an opaque function). -/

/-- Embeds lines 141-162: identity sample at 0 Ma followed by
`inverse(R(0->t, 005->ref_plate))` at each age of the range. -/
def zero_rotation_time_samples_005_rel_000
    (ageRange : List ℚ) (origRefRel005 : ℚ → FiniteRotation) :
    List (GpmlTimeSample FiniteRotation) :=
  ⟨0, 1⟩ :: ageRange.map (fun t => ⟨t, get_inverse (origRefRel005 t)⟩)

/-- Embeds lines 164-168: the new 005-000 total reconstruction sequence. -/
def rotation_feature_005_000
    (ageRange : List ℚ) (origRefRel005 : ℚ → FiniteRotation) :
    RotationFeature FiniteRotation :=
  ⟨0, 5, zero_rotation_time_samples_005_rel_000 ageRange origRefRel005⟩

/-- Embeds lines 124-135 and 170: drop every existing 005-000 feature, then
append the freshly built one. -/
def zeroedRotationFeatures
    (rotation_features : List (RotationFeature FiniteRotation))
    (ageRange : List ℚ) (origRefRel005 : ℚ → FiniteRotation) :
    List (RotationFeature FiniteRotation) :=
  (rotation_features.filter (fun f => !(is005 f))) ++
    [rotation_feature_005_000 ageRange origRefRel005]

/-- First 005-000 feature of a feature list (the lookup loop shared by
`Optimised_APM.py` lines 551-559 and `objective_function.py` lines 99-108). -/
def find005 (fs : List (RotationFeature R)) : Option (RotationFeature R) :=
  fs.find? is005

/-- First enabled time sample of `f` whose time equals `t`. -/
def findSampleAt (f : RotationFeature R) (t : ℚ) : Option R :=
  ((f.samples.find? (fun s => decide (s.time = t))).map (fun s => s.rotation))

/-- Modelled from the spec: the plate-circuit evaluation
`R(0->t, 000->ref_plate) = R(0->t, 000->005) * R(0->t, 005->ref_plate)`
(the identity stated in the source comment at lines 152-157), read off a
feature list whose 005-000 link is stored as time samples.  `refRel005 t` is
the external `R(0->t, 005->ref_plate)` query against the same model. -/
def refRelAnchor (fs : List (RotationFeature FiniteRotation))
    (refRel005 : ℚ → FiniteRotation) (t : ℚ) : Option FiniteRotation :=
  (find005 fs).bind (fun f005 =>
    (findSampleAt f005 t).map (fun r005 => r005 * refRel005 t))

/-! ## Per-step rotation-state update (`Optimised_APM.py` lines 549-586)

The loop finds the first 005-000 feature, then overwrites the finite
rotation of each of its enabled time samples whose time equals
`ref_rotation_start_age` with the new 005-000 rotation; every other feature
is written back as is.  The new rotation value is taken as a parameter (its
construction from the winning parameter vector is the algebra of lines
567-580, treated in the round-trip theorem). -/

def updateSample (newRot : R) (age : ℚ) (s : GpmlTimeSample R) : GpmlTimeSample R :=
  if s.time = age then { s with rotation := newRot } else s

def updateFeatureSamples (newRot : R) (age : ℚ) (f : RotationFeature R) :
    RotationFeature R :=
  { f with samples := f.samples.map (updateSample newRot age) }

def updateRotationFeatures (newRot : R) (age : ℚ) :
    List (RotationFeature R) → List (RotationFeature R)
  | [] => []
  | f :: rest =>
    if is005 f then updateFeatureSamples newRot age f :: rest
    else f :: updateRotationFeatures newRot age rest

/-- Index of the first 005-000 feature, used to state the frame condition. -/
def find005Idx : List (RotationFeature R) → Option ℕ
  | [] => none
  | f :: rest => if is005 f then some 0 else (find005Idx rest).map (· + 1)

/-! ## Post-processing extraction
(`insert_optimised_rotations_into_original_files.py` lines 56-70)

The loop keeps the 005-000 feature found so far; a second find raises
`ValueError`, and so does finding none at all. -/

def extract005Loop (acc : Option (RotationFeature R)) :
    List (RotationFeature R) → Except String (RotationFeature R)
  | [] =>
    match acc with
    | none => .error "Output rotation file of optimisation workflow does not contain a 005-000 sequence"
    | some f => .ok f
  | f :: rest =>
    if is005 f then
      match acc with
      | some _ => .error "Expected a single 005-000 sequence in output rotation file of optimisation workflow"
      | none => extract005Loop (some f) rest
    else extract005Loop acc rest

def extract005 (fs : List (RotationFeature R)) : Except String (RotationFeature R) :=
  extract005Loop none fs

/-! ## Objective function (`objective_function.py` lines 113-472)

NumPy float values are modelled by `PyF`: either an exact rational or NaN
(NumPy emits NaN, with only a warning, for the mean / standard deviation of
an empty array).  Python float division by zero raises `ZeroDivisionError`,
modelled by `Except.error`.  The external geometry statistics (`Calc_Median`,
`ApproximateNR_from_features`, `subduction_absolute_motion`,
`hotspot_trail_misfit`) enter as opaque inputs, and the transcendental
`cos`/`sqrt` used inside the trench-migration statistics enter as opaque
rational functions `cosdeg` (cosine of an angle given in degrees) and
`sqrtq`. -/

inductive PyF where
  | nan : PyF
  | val : ℚ → PyF
deriving DecidableEq, Repr

namespace PyF

def add : PyF → PyF → PyF
  | val a, val b => val (a + b)
  | _, _ => nan

def scale (c : ℚ) : PyF → PyF
  | val a => val (c * a)
  | nan => nan

/-- Python float truthiness: NaN is truthy, `0.0` is falsy. -/
def truthy : PyF → Bool
  | nan => true
  | val a => decide (a ≠ 0)

end PyF

/-- Python float division by a rational; raises `ZeroDivisionError` on a zero
divisor. -/
def pdivQ (x : PyF) (c : ℚ) : Except String PyF :=
  if c = 0 then .error "ZeroDivisionError" else .ok (x.scale c⁻¹)

/-- Embeds `np.mean` (NaN on an empty array). -/
def npMean (l : List ℚ) : PyF :=
  if l.isEmpty then .nan else .val (l.sum / l.length)

/-- Embeds `np.std` (population standard deviation; NaN on an empty array).
`sqrtq` is the opaque square-root function. -/
def npStd (sqrtq : ℚ → ℚ) (l : List ℚ) : PyF :=
  if l.isEmpty then .nan
  else .val (sqrtq ((l.map (fun a => (a - l.sum / l.length) ^ 2)).sum / l.length))

def insortQ (a : ℚ) : List ℚ → List ℚ
  | [] => [a]
  | b :: l => if a ≤ b then a :: b :: l else b :: insortQ a l

def sortQ (l : List ℚ) : List ℚ := l.foldr insortQ []

/-- Embeds `np.median` (NaN on an empty array): middle element of the sorted
data, or the average of the two middle elements for an even count. -/
def npMedian (l : List ℚ) : PyF :=
  if l.isEmpty then .nan
  else
    let s := sortQ l
    if l.length % 2 = 1 then .val (s.getD (l.length / 2) 0)
    else .val ((s.getD (l.length / 2 - 1) 0 + s.getD (l.length / 2) 0) / 2)

/-- Python 2 `round(q, 2)` for the nonnegative quantities it is applied to. -/
def round2 (q : ℚ) : ℚ := (round (q * 100) : ℤ) / 100

/-- Enabled flags `data_array[0..3]`: fracture zones, net rotation, trench
migration, hotspot trails. -/
structure DataArray where
  fracture_zones : Bool
  net_rotation : Bool
  trench_migration : Bool
  hotspot_trails : Bool
deriving DecidableEq, Repr

/-- Fracture-zone branch (lines 168-178): `fz` is the opaque pair returned by
`optimisation_methods.Calc_Median`; the sub-cost is `(fz[0] + fz[1]) /
fracture_zone_weight`. -/
def fzStep (enabled : Bool) (fz : ℚ × ℚ) (fracture_zone_weight : ℚ) :
    Except String (Option PyF) :=
  if enabled then (pdivQ (.val (fz.1 + fz.2)) fracture_zone_weight).map some
  else pure none

/-- Net-rotation branch (lines 184-194): `ptAngles` is the opaque `PTangle1`
array returned by `ApproximateNR_from_features`; the sub-cost is
`(sum |PTangle1| + mean |PTangle1|) / 2 / net_rotation_weight`. -/
def nrStep (enabled : Bool) (ptAngles : List ℚ) (net_rotation_weight : ℚ) :
    Except String (Option PyF) :=
  if enabled then
    (pdivQ (((PyF.val (ptAngles.map (|·|)).sum).add (npMean (ptAngles.map (|·|)))).scale (1/2))
      net_rotation_weight).map some
  else pure none

/-- Trench-migration branch (lines 202-349).  `tm_stats` rows are the opaque
quadruples returned by `subduction_absolute_motion`; components 2 and 3 are
the segment velocity (cm/yr) and obliquity (degrees).  The `'convergence'`
method raises `NotImplementedError` (lines 202-207); the `'pygplates'`
method computes the orthogonal-velocity statistics of lines 289-343,
raising `ZeroDivisionError` in `trench_percent_retreat` when there are no
trench segments. -/
def tmStep (enabled : Bool) (tmMethod : String)
    (tm_stats : List (ℚ × ℚ × ℚ × ℚ)) (trench_migration_weight : ℚ)
    (cosdeg sqrtq : ℚ → ℚ) : Except String (Option PyF) :=
  if enabled ∧ tmMethod = "convergence" then
    .error "NotImplementedError"
  else if enabled ∧ tmMethod = "pygplates" then do
    let trench_vel := (tm_stats.map (fun r => r.2.2.1)).map (· * 10)
    let trench_obl := tm_stats.map (fun r => r.2.2.2)
    let tm_vel_orth := (trench_vel.zip trench_obl).map (fun vo => |vo.1| * (-(cosdeg vo.2)))
    let trench_numTotal := tm_vel_orth.length
    let trench_numRetreating := (tm_vel_orth.filter (fun v => decide (0 < v))).length
    let _trench_numAdvancing := trench_numTotal - trench_numRetreating
    let trench_percent_retreat ←
      if trench_numTotal = 0 then Except.error "ZeroDivisionError"
      else pure (round2 ((trench_numRetreating : ℚ) / (trench_numTotal : ℚ) * 100))
    let _trench_percent_advance := 100 - trench_percent_retreat
    let _trench_sumAbsVel_n := (tm_vel_orth.map (|·|)).sum / (trench_numTotal : ℚ)
    let _trench_numOver30 := (tm_vel_orth.filter (fun v => decide (30 < v))).length
    let _trench_numLessNeg30 := (tm_vel_orth.filter (fun v => decide (v < -30))).length
    let tm_eval_2 ← pdivQ (.val ((tm_vel_orth.map (|·|)).sum / (trench_numTotal : ℚ)))
      trench_migration_weight
    let tm_eval_5 ← pdivQ (npStd sqrtq tm_vel_orth) trench_migration_weight
    pure (some ((tm_eval_2.add tm_eval_5).scale 3))
  else pure none

/-- Hotspot-trail branch (lines 354-390) for the configured
`use_trail_age_uncertainty = True` path: `hsDists` and `hsUncert` are the
opaque misfit distances `hs[0]` and uncertainties `hs[2]` of
`hotspot_trail_misfit`; distances under the uncertainty limit are halved,
the rest doubled, and the sub-cost is `(median + std) /
hotspot_trails_weight`. -/
def hsStep (enabled : Bool) (useTrailAgeUncertainty : Bool)
    (hsDists hsUncert : List ℚ) (hotspot_trails_weight : ℚ) (sqrtq : ℚ → ℚ) :
    Except String (Option PyF) :=
  if enabled then
    let weighted_dist :=
      if useTrailAgeUncertainty then
        (hsDists.zip hsUncert).map (fun du => if du.1 < du.2 then du.1 / 2 else du.1 * 2)
      else hsDists
    (pdivQ ((npMedian weighted_dist).add (npStd sqrtq weighted_dist))
      hotspot_trails_weight).map some
  else pure none

/-- Combination section (lines 399-455): scaling constants `alpha = 10`,
`gamma = 1000/4`; a term is added only when its branch ran (otherwise the
`NameError` is swallowed by `except: pass`) and its value is truthy. -/
def combineSubCosts (dataArray : DataArray)
    (fz_eval nr_eval tm_eval hs_dist_eval : Option PyF) : PyF :=
  let alpha : ℚ := 10
  let gamma : ℚ := 1000 / 4
  let e0 : PyF := .val 0
  let e1 := match fz_eval with
    | some v => if v.truthy then e0.add (v.scale alpha) else e0
    | none => e0
  let e2 := match nr_eval with
    | some v => if v.truthy then e1.add (v.scale gamma) else e1
    | none => e1
  let e3 := match tm_eval with
    | some v => if v.truthy then e2.add v else e2
    | none => e2
  match hs_dist_eval with
  | some v => if v.truthy ∧ dataArray.hotspot_trails then e3.add (v.scale (1/8)) else e3
  | none => e3

/-- Embeds one call of `ObjectiveFunction.__call__` (its cost computation:
steps 1-2 build the candidate rotation model, whose influence is entirely
mediated by the opaque statistic inputs below). -/
def objectiveCall (dataArray : DataArray) (tmMethod : String)
    (useTrailAgeUncertainty : Bool)
    (fz : ℚ × ℚ) (ptAngles : List ℚ) (tm_stats : List (ℚ × ℚ × ℚ × ℚ))
    (hsDists hsUncert : List ℚ)
    (fracture_zone_weight net_rotation_weight trench_migration_weight
      hotspot_trails_weight : ℚ)
    (cosdeg sqrtq : ℚ → ℚ) : Except String PyF := do
  let fz_eval ← fzStep dataArray.fracture_zones fz fracture_zone_weight
  let nr_eval ← nrStep dataArray.net_rotation ptAngles net_rotation_weight
  let tm_eval ← tmStep dataArray.trench_migration tmMethod tm_stats
    trench_migration_weight cosdeg sqrtq
  let hs_dist_eval ← hsStep dataArray.hotspot_trails useTrailAgeUncertainty
    hsDists hsUncert hotspot_trails_weight sqrtq
  pure (combineSubCosts dataArray fz_eval nr_eval tm_eval hs_dist_eval)

/-! ## Best-trial selection (`Optimised_APM.py` lines 493-501)

`results` is the list of costs, `np.min` the least element, and
`np.where(results == np.min(results))[0][0]` the first index attaining it. -/

/-- Embeds `np.min` (undefined on an empty array, hence `Option`). -/
def npMin : List ℚ → Option ℚ
  | [] => none
  | a :: as => some (as.foldl min a)

/-- First index of `l` whose entry equals `m`
(embeds `np.where(results == m)[0][0]`). -/
def firstIdxEq (m : ℚ) : List ℚ → ℕ
  | [] => 0
  | c :: cs => if c = m then 0 else firstIdxEq m cs + 1

/-- Embeds lines 494-501: the trial at the first index whose cost equals the
minimum cost.  A trial is an `(xopt, minf)` pair; only the cost component is
inspected. -/
def minResult (xopt : List (X × ℚ)) : Option (X × ℚ) :=
  (npMin (xopt.map (fun r => r.2))).bind
    (fun m => xopt[firstIdxEq m (xopt.map (fun r => r.2))]?)

/-! ## Search-radius expansion (`Optimised_APM.py` lines 238-256)

On a reference-plate switch (with the config switch enabled, a non-first
step, and an `'Initial'` search) the radius is widened to 90 degrees and the
model count becomes
`int((1 - cos(radians(90)/2)) / (1 - cos(radians(radius)/2)) * models + 0.5)`.
Real-valued trigonometry makes these definitions noncomputable. -/

noncomputable def scaledModels (current_search_radius searchRadius : ℝ)
    (modelCount : ℕ) : ℤ :=
  ⌊(1 - Real.cos (0.5 * (current_search_radius * Real.pi / 180))) /
    (1 - Real.cos (0.5 * (searchRadius * Real.pi / 180))) * modelCount + 0.5⌋

/-- Embeds lines 238-256: the `(current_search_radius, current_models)` pair
used for the step. -/
noncomputable def stepSearchParams (expandOnSwitch : Bool) (i : ℕ)
    (searchKind : String) (ref_rotation_plate_id last_ref_rotation_plate_id : ℕ)
    (searchRadius : ℝ) (modelCount : ℕ) : ℝ × ℤ :=
  if expandOnSwitch ∧ 0 < i ∧ searchKind = "Initial" ∧
      ref_rotation_plate_id ≠ last_ref_rotation_plate_id then
    (90, scaledModels 90 searchRadius modelCount)
  else (searchRadius, modelCount)

/-! ## Helper lemmas -/

theorem fzStep_exists_ok (e : Bool) (fz : ℚ × ℚ) (w : ℚ) (h : w ≠ 0) :
    ∃ v, fzStep e fz w = .ok v := by
  cases e <;> simp [fzStep, pdivQ, h, pure, Except.pure, Except.map]

theorem nrStep_exists_ok (e : Bool) (pt : List ℚ) (w : ℚ) (h : w ≠ 0) :
    ∃ v, nrStep e pt w = .ok v := by
  cases e <;> simp [nrStep, pdivQ, h, pure, Except.pure, Except.map]

theorem mem_of_getElem?_eq_some {β : Type _} {l : List β} {i : ℕ} {x : β}
    (h : l[i]? = some x) : x ∈ l := by
  obtain ⟨hlt, rfl⟩ := List.getElem?_eq_some.mp h
  exact List.getElem_mem ..

theorem foldl_min_le_init : ∀ (l : List ℚ) (a : ℚ), l.foldl min a ≤ a := by
  intro l
  induction l with
  | nil => intro a; exact le_refl a
  | cons b l ih =>
    intro a
    exact le_trans (ih (min a b)) (min_le_left a b)

theorem foldl_min_le_mem : ∀ (l : List ℚ) (a x : ℚ), x ∈ l → l.foldl min a ≤ x := by
  intro l
  induction l with
  | nil => intro a x hx; cases hx
  | cons b l ih =>
    intro a x hx
    rcases List.mem_cons.mp hx with rfl | hx
    · exact le_trans (foldl_min_le_init l (min a x)) (min_le_right a x)
    · exact ih (min a b) x hx

theorem foldl_min_mem : ∀ (l : List ℚ) (a : ℚ), l.foldl min a = a ∨ l.foldl min a ∈ l := by
  intro l
  induction l with
  | nil => intro a; exact Or.inl rfl
  | cons b l ih =>
    intro a
    rcases ih (min a b) with h | h
    · rcases min_choice a b with hm | hm
      · exact Or.inl (by rw [List.foldl_cons, h, hm])
      · exact Or.inr (by rw [List.foldl_cons, h, hm]; exact List.mem_cons_self b l)
    · exact Or.inr (List.mem_cons_of_mem b h)

theorem firstIdxEq_spec (m : ℚ) :
    ∀ (l : List ℚ), m ∈ l →
      l[firstIdxEq m l]? = some m ∧
      ∀ j c, j < firstIdxEq m l → l[j]? = some c → c ≠ m := by
  intro l
  induction l with
  | nil => intro h; cases h
  | cons b l ih =>
    intro hm
    by_cases hb : b = m
    · refine ⟨?_, ?_⟩
      · simp [firstIdxEq, hb]
      · intro j c hj _; simp [firstIdxEq, hb] at hj
    · have hml : m ∈ l := by
        rcases List.mem_cons.mp hm with h | h
        · exact absurd h.symm hb
        · exact h
      obtain ⟨h1, h2⟩ := ih hml
      refine ⟨?_, ?_⟩
      · simpa [firstIdxEq, hb] using h1
      · intro j c hj hc
        rw [show firstIdxEq m (b :: l) = firstIdxEq m l + 1 by simp [firstIdxEq, hb]] at hj
        match j, hc with
        | 0, hc =>
          rw [List.getElem?_cons_zero] at hc
          exact fun h => hb (by rw [Option.some_inj.mp hc, h])
        | j + 1, hc =>
          rw [List.getElem?_cons_succ] at hc
          exact h2 j c (by omega) hc

/-! ## C4: plate-circuit algebra round trip -/

/-- C4: for every candidate reference-plate-to-anchor rotation, composing
`new_bookkeeping = candidate * inverse(reference_to_bookkeeping)` and then
reconstructing `new_bookkeeping * reference_to_bookkeeping` recovers the
candidate exactly (`objective_function.py` lines 134-151 and
`Optimised_APM.py` lines 567-582). -/
theorem plate_circuit_round_trip
    (candidate reference_to_bookkeeping : FiniteRotation)
    (h : IsRotation reference_to_bookkeeping) :
    (candidate * get_inverse reference_to_bookkeeping) * reference_to_bookkeeping
      = candidate := by
  rw [Matrix.mul_assoc, get_inverse, h.1, Matrix.mul_one]

/-- Witness for C4 at a 90-degree rotation about the third axis and a
generic candidate matrix. -/
theorem plate_circuit_round_trip_witness :
    IsRotation (!![0,-1,0; 1,0,0; 0,0,1] : FiniteRotation) ∧
    ((!![1,2,3; 4,5,6; 7,8,9] : FiniteRotation) *
        get_inverse !![0,-1,0; 1,0,0; 0,0,1]) * !![0,-1,0; 1,0,0; 0,0,1]
      = !![1,2,3; 4,5,6; 7,8,9] := by
  have hrot : IsRotation (!![0,-1,0; 1,0,0; 0,0,1] : FiniteRotation) := by
    constructor <;>
      · ext i j
        fin_cases i <;> fin_cases j <;>
          simp [Matrix.mul_apply, Fin.sum_univ_three, Matrix.one_apply,
            Matrix.transpose_apply, Matrix.vecHead, Matrix.vecTail]
  exact ⟨hrot, plate_circuit_round_trip _ _ hrot⟩

/-! ## C10: deprecated convergence trench-migration path -/

/-- C10: whenever the trench-migration term is enabled and `tm_method` is
`'convergence'`, `ObjectiveFunction.__call__` raises `NotImplementedError`
(`objective_function.py` lines 202-207), so the deprecated path never
produces a cost. -/
theorem convergence_method_raises_not_implemented
    (dataArray : DataArray) (useU : Bool) (fz : ℚ × ℚ) (pt : List ℚ)
    (tm_stats : List (ℚ × ℚ × ℚ × ℚ)) (hsD hsU : List ℚ)
    (fzw nrw tmw hsw : ℚ) (cosdeg sqrtq : ℚ → ℚ)
    (htm : dataArray.trench_migration = true)
    (hfzw : fzw ≠ 0) (hnrw : nrw ≠ 0) :
    objectiveCall dataArray "convergence" useU fz pt tm_stats hsD hsU
      fzw nrw tmw hsw cosdeg sqrtq = .error "NotImplementedError" := by
  obtain ⟨v1, hv1⟩ := fzStep_exists_ok dataArray.fracture_zones fz fzw hfzw
  obtain ⟨v2, hv2⟩ := nrStep_exists_ok dataArray.net_rotation pt nrw hnrw
  have htmStep : tmStep dataArray.trench_migration "convergence" tm_stats tmw
      cosdeg sqrtq = .error "NotImplementedError" := by
    simp [tmStep, htm]
  unfold objectiveCall
  rw [hv1]
  show (nrStep _ _ _ >>= _) = _
  rw [hv2]
  show (tmStep _ _ _ _ _ _ >>= _) = _
  rw [htmStep]
  rfl

/-- Witness for C10 with all four cost terms enabled and unit weights. -/
theorem convergence_method_raises_not_implemented_witness :
    objectiveCall ⟨true, true, true, true⟩ "convergence" true (0, 0) [1] []
      [] [] 1 1 1 1 (fun q => q) (fun q => q) = .error "NotImplementedError" :=
  convergence_method_raises_not_implemented ⟨true, true, true, true⟩ true (0, 0)
    [1] [] [] [] 1 1 1 1 (fun q => q) (fun q => q) rfl
    (by norm_num) (by norm_num)

/-! ## C3: empty trench set under the pygplates method -/

/-- C3 (failing input): with trench migration enabled via the `'pygplates'`
method and an empty set of resolved trench segments, the objective call does
not omit the trench sub-cost; it raises `ZeroDivisionError` in
`trench_percent_retreat = round(float(0)/float(0)*100, 2)`
(`objective_function.py` line 311), shown here at the configuration active
for ages above 80 Ma (net rotation and trench migration enabled, unit
weights). -/
theorem trench_migration_empty_raises_zero_division :
    objectiveCall ⟨false, true, true, false⟩ "pygplates" true (0, 0) [1] []
      [] [] 1 1 1 1 (fun q => q) (fun q => q) = .error "ZeroDivisionError" := by
  rfl

/-! ## C7: best-trial selection -/

/-- C7: for every non-empty trial-result list, the selected result is an
element of the list whose cost is a minimum over the list, and every trial
at an earlier index has strictly greater cost (`Optimised_APM.py` lines
493-501). -/
theorem min_result_selects_first_minimum {X : Type}
    (xopt : List (X × ℚ)) (h : xopt ≠ []) :
    ∃ (i : ℕ) (r : X × ℚ),
      minResult xopt = some r ∧
      xopt[i]? = some r ∧
      (∀ s ∈ xopt, r.2 ≤ s.2) ∧
      (∀ j s, j < i → xopt[j]? = some s → r.2 < s.2) := by
  obtain ⟨p, ps, rfl⟩ : ∃ p ps, xopt = p :: ps := by
    cases xopt with
    | nil => exact absurd rfl h
    | cons p ps => exact ⟨p, ps, rfl⟩
  · set costs := ((p :: ps).map (fun r => r.2)) with hcosts
    set m := (ps.map (fun r => r.2)).foldl min p.2 with hm
    have hnp : npMin costs = some m := by simp [npMin, hcosts, hm]
    have hmmem : m ∈ costs := by
      rcases foldl_min_mem (ps.map (fun r => r.2)) p.2 with h1 | h1
      · rw [hcosts, List.map_cons, hm, h1]; exact List.mem_cons_self _ _
      · rw [hcosts, List.map_cons]; exact List.mem_cons_of_mem _ (by rw [hm]; exact h1)
    have hmle : ∀ x ∈ costs, m ≤ x := by
      intro x hx2
      rw [hcosts, List.map_cons] at hx2
      rcases List.mem_cons.mp hx2 with rfl | hx2
      · exact foldl_min_le_init _ _
      · exact foldl_min_le_mem _ _ _ hx2
    obtain ⟨hfi, hfe⟩ := firstIdxEq_spec m costs hmmem
    set i := firstIdxEq m costs with hi
    have hilt : i < costs.length := by
      by_contra hge
      rw [List.getElem?_eq_none (by omega)] at hfi
      cases hfi
    have hlen : costs.length = (p :: ps).length := by rw [hcosts, List.length_map]
    obtain ⟨r, hr⟩ : ∃ r, (p :: ps)[i]? = some r := by
      have : i < (p :: ps).length := by omega
      exact ⟨(p :: ps)[i], List.getElem?_eq_some.mpr ⟨this, rfl⟩⟩
    have hr2 : r.2 = m := by
      have : costs[i]? = ((p :: ps)[i]?).map (fun r => r.2) := by
        rw [hcosts]; exact List.getElem?_map ..
      rw [hfi, hr] at this
      exact (Option.some_inj.mp this).symm
    refine ⟨i, r, ?_, hr, ?_, ?_⟩
    · show minResult (p :: ps) = some r
      unfold minResult
      rw [← hcosts, hnp]
      simp only [Option.some_bind]
      rw [← hi]
      exact hr
    · intro s hs
      rw [hr2]
      exact hmle s.2 (by rw [hcosts]; exact List.mem_map_of_mem _ hs)
    · intro j s hj hjs
      have hjc : costs[j]? = some s.2 := by
        rw [hcosts, List.getElem?_map .., hjs]; rfl
      have hne : s.2 ≠ m := hfe j s.2 hj hjc
      have hle : m ≤ s.2 := hmle s.2 (by
        rw [hcosts]
        exact List.mem_map_of_mem _ (mem_of_getElem?_eq_some hjs))
      rw [hr2]
      exact lt_of_le_of_ne hle (fun he => hne he.symm)

/-- Witness for C7: three trials with a tied minimum cost at indices 1 and 2;
the selection property holds for this batch. -/
theorem min_result_selects_first_minimum_witness :
    ∃ (i : ℕ) (r : ℕ × ℚ),
      minResult [((0:ℕ), (3:ℚ)), (1, 1), (2, 1)] = some r ∧
      [((0:ℕ), (3:ℚ)), (1, 1), (2, 1)][i]? = some r ∧
      (∀ s ∈ [((0:ℕ), (3:ℚ)), (1, 1), (2, 1)], r.2 ≤ s.2) ∧
      (∀ j s, j < i → [((0:ℕ), (3:ℚ)), (1, 1), (2, 1)][j]? = some s → r.2 < s.2) :=
  min_result_selects_first_minimum [((0:ℕ), (3:ℚ)), (1, 1), (2, 1)] (by decide)

/-! ## C1: time-step ordering -/

theorem npArange_getElem? (start stop step : ℚ) (k : ℕ) :
    (npArange start stop step)[k]? =
      if k < (⌈(stop - start) / step⌉).toNat then some (start + k * step) else none := by
  unfold npArange
  rw [List.getElem?_map]
  by_cases h : k < (⌈(stop - start) / step⌉).toNat
  · rw [List.getElem?_eq_getElem (by rw [List.length_range]; exact h),
      List.getElem_range, if_pos h]
    rfl
  · rw [List.getElem?_eq_none (by rw [List.length_range]; omega), if_neg h]
    rfl

/-- Ceiling of the configured age span: 100 time steps. -/
theorem age_range_step_count :
    ⌈((start_age + interval) - (end_age + interval)) / interval⌉ = 100 := by
  rw [show ((start_age + interval) - (end_age + interval)) / interval = ((100 : ℤ) : ℚ) by
    norm_num [start_age, end_age, interval], Int.ceil_intCast]

/-- C1 (counterexample): with the configured ages
(`start_age = 1000`, `end_age = 0`, `interval = 10`) the campaign age range
`np.arange(end_age + interval, start_age + interval, interval)` is *not*
strictly descending: its first element is 10 Ma and its second is 20 Ma
(`Optimised_APM.py` lines 105 and 216-219). -/
theorem age_range_not_descending : ¬ List.Pairwise (· > ·) age_range := by
  intro hp
  have h0 : age_range[0]? = some 10 := by
    unfold age_range
    rw [npArange_getElem?, age_range_step_count]
    norm_num [end_age, interval]
  have h1 : age_range[1]? = some 20 := by
    unfold age_range
    rw [npArange_getElem?, age_range_step_count]
    norm_num [end_age, interval]
  obtain ⟨hlt0, he0⟩ := List.getElem?_eq_some.mp h0
  obtain ⟨hlt1, he1⟩ := List.getElem?_eq_some.mp h1
  rw [List.pairwise_iff_getElem] at hp
  have h01 := hp 0 1 hlt0 hlt1 (by norm_num)
  rw [he0, he1] at h01
  norm_num at h01

/-- C1 (amended): for any positive step, the campaign age range
`np.arange(end_age + interval, start_age + interval, interval)` is strictly
*ascending* (youngest age first, i.e. the time loop runs
youngest-to-oldest), and consecutive ages differ by exactly the interval,
so each later (older) step reads the rotation state written by the
immediately previous (younger) step. -/
theorem age_range_strictly_ascending (startA endA step : ℚ) (hstep : 0 < step) :
    List.Pairwise (· < ·) (npArange (endA + step) (startA + step) step) ∧
    (∀ (k : ℕ) (a b : ℚ),
      (npArange (endA + step) (startA + step) step)[k]? = some a →
      (npArange (endA + step) (startA + step) step)[k + 1]? = some b →
      b = a + step) := by
  constructor
  · rw [List.pairwise_iff_getElem]
    intro i j hi hj hij
    unfold npArange at hi hj ⊢
    rw [List.length_map, List.length_range] at hi hj
    rw [List.getElem_map, List.getElem_map, List.getElem_range, List.getElem_range]
    have hcast : (i : ℚ) < (j : ℚ) := by exact_mod_cast hij
    have := mul_lt_mul_of_pos_right hcast hstep
    linarith
  · intro k a b ha hb
    rw [npArange_getElem?] at ha hb
    by_cases hk : k < (⌈((startA + step) - (endA + step)) / step⌉).toNat
    · rw [if_pos hk] at ha
      by_cases hk1 : k + 1 < (⌈((startA + step) - (endA + step)) / step⌉).toNat
      · rw [if_pos hk1] at hb
        have ha2 := Option.some_inj.mp ha
        have hb2 := Option.some_inj.mp hb
        rw [← ha2, ← hb2]
        push_cast
        ring
      · rw [if_neg hk1] at hb; cases hb
    · rw [if_neg hk] at ha; cases ha

/-- Witness for the amended C1 at the configured ages. -/
theorem age_range_strictly_ascending_witness :
    List.Pairwise (· < ·) (npArange (end_age + interval) (start_age + interval) interval) ∧
    (∀ (k : ℕ) (a b : ℚ),
      (npArange (end_age + interval) (start_age + interval) interval)[k]? = some a →
      (npArange (end_age + interval) (start_age + interval) interval)[k + 1]? = some b →
      b = a + interval) :=
  age_range_strictly_ascending start_age end_age interval (by norm_num [interval])

/-! ## C6: frame effect of the per-step rotation-state update -/

/-- C6: the per-step rotation-file update changes at most the first 005-000
feature, and inside it exactly the enabled time samples whose time equals
the step start age; every other feature, and every sample at any other
time, is written back unchanged (`Optimised_APM.py` lines 549-586). -/
theorem updateRotationFeatures_cons_pos {R : Type} (newRot : R) (age : ℚ)
    (f : RotationFeature R) (rest : List (RotationFeature R)) (h : is005 f = true) :
    updateRotationFeatures newRot age (f :: rest) =
      updateFeatureSamples newRot age f :: rest := by
  simp [updateRotationFeatures, h]

theorem updateRotationFeatures_cons_neg {R : Type} (newRot : R) (age : ℚ)
    (f : RotationFeature R) (rest : List (RotationFeature R)) (h : ¬ is005 f = true) :
    updateRotationFeatures newRot age (f :: rest) =
      f :: updateRotationFeatures newRot age rest := by
  simp [updateRotationFeatures, h]

theorem update_rotation_frame_effect {R : Type} (newRot : R) (age : ℚ)
    (fs : List (RotationFeature R)) :
    (updateRotationFeatures newRot age fs).length = fs.length ∧
    (∀ i : ℕ, find005Idx fs ≠ some i →
      (updateRotationFeatures newRot age fs)[i]? = fs[i]?) ∧
    (∀ i : ℕ, find005Idx fs = some i →
      (updateRotationFeatures newRot age fs)[i]? =
        (fs[i]?).map (updateFeatureSamples newRot age)) := by
  induction fs with
  | nil => exact ⟨rfl, fun i _ => rfl, fun i h => by cases h⟩
  | cons f rest ih =>
    by_cases h5 : is005 f
    · refine ⟨?_, ?_, ?_⟩
      · rw [updateRotationFeatures_cons_pos newRot age f rest h5]
        rfl
      · intro i hi
        match i with
        | 0 => exact absurd (by simp [find005Idx, h5]) hi
        | j + 1 =>
          rw [updateRotationFeatures_cons_pos newRot age f rest h5,
            List.getElem?_cons_succ, List.getElem?_cons_succ]
      · intro i hi
        have hi0 : i = 0 := by
          rw [show find005Idx (f :: rest) = some 0 by simp [find005Idx, h5]] at hi
          exact (Option.some_inj.mp hi).symm
        subst hi0
        rw [updateRotationFeatures_cons_pos newRot age f rest h5,
          List.getElem?_cons_zero, List.getElem?_cons_zero]
        rfl
    · obtain ⟨ihl, ihn, ihs⟩ := ih
      refine ⟨?_, ?_, ?_⟩
      · rw [updateRotationFeatures_cons_neg newRot age f rest h5]
        simp [ihl]
      · intro i hi
        match i with
        | 0 =>
          rw [updateRotationFeatures_cons_neg newRot age f rest h5,
            List.getElem?_cons_zero, List.getElem?_cons_zero]
        | j + 1 =>
          have hj : find005Idx rest ≠ some j := by
            intro hj
            exact hi (by simp [find005Idx, h5, hj])
          rw [updateRotationFeatures_cons_neg newRot age f rest h5,
            List.getElem?_cons_succ, List.getElem?_cons_succ]
          exact ihn j hj
      · intro i hi
        rw [show find005Idx (f :: rest) = (find005Idx rest).map (· + 1) by
          simp [find005Idx, h5]] at hi
        obtain ⟨j, hj, hji⟩ := Option.map_eq_some'.mp hi
        subst hji
        rw [updateRotationFeatures_cons_neg newRot age f rest h5,
          List.getElem?_cons_succ, List.getElem?_cons_succ]
        exact ihs j hj

/-- Witness for C6 on a two-feature file whose 005-000 sequence sits at
index 1 with samples at 10 Ma and 20 Ma, updating the 10 Ma step. -/
theorem update_rotation_frame_effect_witness :
    (updateRotationFeatures (99 : ℕ) 10
        [⟨1, 2, [⟨10, 7⟩]⟩, ⟨0, 5, [⟨10, 3⟩, ⟨20, 4⟩]⟩]).length =
      ([⟨1, 2, [⟨10, 7⟩]⟩, ⟨0, 5, [⟨10, 3⟩, ⟨20, 4⟩]⟩] :
        List (RotationFeature ℕ)).length ∧
    (updateRotationFeatures (99 : ℕ) 10
        [⟨1, 2, [⟨10, 7⟩]⟩, ⟨0, 5, [⟨10, 3⟩, ⟨20, 4⟩]⟩])[0]? =
      ([⟨1, 2, [⟨10, 7⟩]⟩, ⟨0, 5, [⟨10, 3⟩, ⟨20, 4⟩]⟩] :
        List (RotationFeature ℕ))[0]? ∧
    (updateRotationFeatures (99 : ℕ) 10
        [⟨1, 2, [⟨10, 7⟩]⟩, ⟨0, 5, [⟨10, 3⟩, ⟨20, 4⟩]⟩])[1]? =
      (([⟨1, 2, [⟨10, 7⟩]⟩, ⟨0, 5, [⟨10, 3⟩, ⟨20, 4⟩]⟩] :
        List (RotationFeature ℕ))[1]?).map (updateFeatureSamples 99 10) :=
  ⟨(update_rotation_frame_effect 99 10 _).1,
   (update_rotation_frame_effect 99 10 _).2.1 0 (by decide),
   (update_rotation_frame_effect 99 10 _).2.2 1 (by decide)⟩

/-! ## C9: rotation-state consistency violations -/

theorem extract005Loop_no005 {R : Type} (fs : List (RotationFeature R))
    (h : ∀ f ∈ fs, is005 f = false) :
    ∀ acc, extract005Loop acc fs =
      match acc with
      | none => .error "Output rotation file of optimisation workflow does not contain a 005-000 sequence"
      | some f => .ok f := by
  induction fs with
  | nil => intro acc; rfl
  | cons f rest ih =>
    intro acc
    have hf : is005 f = false := h f (List.mem_cons_self f rest)
    have hrest : ∀ g ∈ rest, is005 g = false := fun g hg => h g (List.mem_cons_of_mem f hg)
    simp only [extract005Loop, hf, Bool.false_eq_true, if_false]
    exact ih hrest acc

theorem extract005Loop_dup_after_found {R : Type} (fs : List (RotationFeature R))
    (h : ∃ f ∈ fs, is005 f = true) (g : RotationFeature R) :
    extract005Loop (some g) fs =
      .error "Expected a single 005-000 sequence in output rotation file of optimisation workflow" := by
  induction fs with
  | nil => obtain ⟨f, hf, _⟩ := h; cases hf
  | cons f rest ih =>
    by_cases hf : is005 f
    · simp [extract005Loop, hf]
    · obtain ⟨f2, hf2, h5⟩ := h
      rcases List.mem_cons.mp hf2 with rfl | hf2
      · exact absurd h5 (by simp [hf])
      · simp only [extract005Loop, hf, Bool.false_eq_true, if_false]
        exact ih ⟨f2, hf2, h5⟩

theorem updateRotationFeatures_no005 {R : Type} (newRot : R) (age : ℚ)
    (fs : List (RotationFeature R)) (h : ∀ f ∈ fs, is005 f = false) :
    updateRotationFeatures newRot age fs = fs := by
  induction fs with
  | nil => rfl
  | cons f rest ih =>
    have hf : is005 f = false := h f (List.mem_cons_self f rest)
    have hrest : ∀ g ∈ rest, is005 g = false := fun g hg => h g (List.mem_cons_of_mem f hg)
    simp only [updateRotationFeatures, hf, Bool.false_eq_true, if_false]
    rw [ih hrest]

/-- C9 (counterexample): in the per-step update of `Optimised_APM.py`
(lines 549-586), a rotation state with *no* 005-000 sequence is not fatal:
the guard `if opt_rotation_sequence:` silently skips the update and the
state is written back unchanged, so the consuming operation proceeds
rather than raising. -/
theorem update_proceeds_without_005_sequence :
    updateRotationFeatures (99 : ℕ) 10 [⟨1, 2, [⟨10, 7⟩]⟩] = [⟨1, 2, [⟨10, 7⟩]⟩] := by
  rfl

/-- C9 (amended): a missing or duplicated 005-000 sequence is fatal
(`ValueError`) in the post-processing extraction of
`insert_optimised_rotations_into_original_files.py` (lines 56-70), but in
the main per-step update a missing 005-000 sequence merely leaves the
rotation state unchanged (no raise). -/
theorem rotation_state_consistency_behaviour {R : Type}
    (fs : List (RotationFeature R)) :
    (fs.countP is005 = 0 →
      extract005 fs =
        .error "Output rotation file of optimisation workflow does not contain a 005-000 sequence" ∧
      ∀ (newRot : R) (age : ℚ), updateRotationFeatures newRot age fs = fs) ∧
    (2 ≤ fs.countP is005 →
      extract005 fs =
        .error "Expected a single 005-000 sequence in output rotation file of optimisation workflow") := by
  constructor
  · intro h0
    have hall : ∀ f ∈ fs, is005 f = false := by
      intro f hf
      have := List.countP_eq_zero.mp h0 f hf
      simpa using this
    exact ⟨extract005Loop_no005 fs hall none,
      fun newRot age => updateRotationFeatures_no005 newRot age fs hall⟩
  · intro h2
    induction fs with
    | nil => simp [List.countP_nil] at h2
    | cons f rest ih =>
      by_cases hf : is005 f
      · have h1 : 1 ≤ rest.countP is005 := by
          rw [List.countP_cons_of_pos _ _ hf] at h2
          omega
        have hex : ∃ g ∈ rest, is005 g = true := List.countP_pos_iff.mp (by omega)
        show extract005Loop none (f :: rest) = _
        simp only [extract005Loop, hf, if_true]
        exact extract005Loop_dup_after_found rest hex f
      · have : 2 ≤ rest.countP is005 := by
          rw [List.countP_cons_of_neg _ _ (by simp [hf])] at h2
          exact h2
        show extract005Loop none (f :: rest) = _
        simp only [extract005Loop, hf, Bool.false_eq_true, if_false]
        exact ih this

/-- Witness for the amended C9: a file with no 005-000 sequence and a file
with two of them. -/
theorem rotation_state_consistency_behaviour_witness :
    extract005 ([⟨1, 2, []⟩] : List (RotationFeature ℕ)) =
      .error "Output rotation file of optimisation workflow does not contain a 005-000 sequence" ∧
    updateRotationFeatures (99 : ℕ) 10 [⟨1, 2, []⟩] = [⟨1, 2, []⟩] ∧
    extract005 ([⟨0, 5, []⟩, ⟨0, 5, []⟩] : List (RotationFeature ℕ)) =
      .error "Expected a single 005-000 sequence in output rotation file of optimisation workflow" :=
  ⟨((rotation_state_consistency_behaviour _).1 (by decide)).1,
   ((rotation_state_consistency_behaviour _).1 (by decide)).2 99 10,
   (rotation_state_consistency_behaviour _).2 (by decide)⟩

/-! ## C5: pre-campaign zeroing invariant -/

theorem find?_append_of_all_false {β : Type _} (p : β → Bool) (l1 l2 : List β)
    (h : ∀ x ∈ l1, p x = false) : (l1 ++ l2).find? p = l2.find? p := by
  induction l1 with
  | nil => rfl
  | cons x l1 ih =>
    rw [List.cons_append, List.find?_cons_of_neg _ (by simp [h x (List.mem_cons_self x l1)]),
      ih (fun y hy => h y (List.mem_cons_of_mem x hy))]

theorem find005_zeroed (fs : List (RotationFeature FiniteRotation))
    (ageRange : List ℚ) (origRefRel005 : ℚ → FiniteRotation) :
    find005 (zeroedRotationFeatures fs ageRange origRefRel005) =
      some (rotation_feature_005_000 ageRange origRefRel005) := by
  unfold find005 zeroedRotationFeatures
  rw [find?_append_of_all_false _ _ _ (by
    intro x hx
    have := (List.mem_filter.mp hx).2
    simpa using this)]
  rw [List.find?_cons_of_pos _ (by rfl)]

theorem find?_sample_in_zero_map (g : ℚ → FiniteRotation) :
    ∀ (l : List ℚ) (t : ℚ), t ∈ l →
      (l.map (fun u => (⟨u, get_inverse (g u)⟩ : GpmlTimeSample FiniteRotation))).find?
          (fun s => decide (s.time = t)) =
        some ⟨t, get_inverse (g t)⟩ := by
  intro l
  induction l with
  | nil => intro t ht; cases ht
  | cons a l ih =>
    intro t ht
    by_cases hat : a = t
    · subst hat
      rw [List.map_cons, List.find?_cons_of_pos _ (by simp)]
    · have htl : t ∈ l := by
        rcases List.mem_cons.mp ht with h | h
        · exact absurd h.symm hat
        · exact h
      rw [List.map_cons, List.find?_cons_of_neg _ (by simp [hat]), ih t htl]

/-- C5: after the one-time pre-campaign setup (every pre-existing 005-000
sequence removed, the freshly constructed one appended), the plate-circuit
rotation of the active reference plate relative to the anchor is the
identity at 0 Ma and at every age of the optimisation age range
(`Optimised_APM.py` lines 117-173).  `refRel005 t` is the external
`R(0->t, 005->ref_plate)` query, which is unaffected by replacing the
005-000 sequence; the hypotheses state that it is the identity at present
day (standard rotation-file convention) and a genuine rotation at every
age. -/
theorem zeroed_rotation_state_identity
    (fs : List (RotationFeature FiniteRotation)) (ageRange : List ℚ)
    (refRel005 : ℚ → FiniteRotation)
    (h0 : refRel005 0 = 1)
    (horth : ∀ t ∈ ageRange, (refRel005 t).transpose * refRel005 t = 1) :
    refRelAnchor (zeroedRotationFeatures fs ageRange refRel005) refRel005 0 = some 1 ∧
    ∀ t ∈ ageRange,
      refRelAnchor (zeroedRotationFeatures fs ageRange refRel005) refRel005 t = some 1 := by
  have hbind : ∀ t : ℚ,
      refRelAnchor (zeroedRotationFeatures fs ageRange refRel005) refRel005 t =
        (findSampleAt (rotation_feature_005_000 ageRange refRel005) t).map
          (fun r005 => r005 * refRel005 t) := by
    intro t
    unfold refRelAnchor
    rw [find005_zeroed]
    rfl
  constructor
  · rw [hbind 0]
    have : findSampleAt (rotation_feature_005_000 ageRange refRel005) 0 = some 1 := by
      unfold findSampleAt rotation_feature_005_000 zero_rotation_time_samples_005_rel_000
      rw [List.find?_cons_of_pos _ (by simp)]
      rfl
    rw [this]
    simp [h0]
  · intro t ht
    rw [hbind t]
    by_cases ht0 : t = 0
    · subst ht0
      have : findSampleAt (rotation_feature_005_000 ageRange refRel005) 0 = some 1 := by
        unfold findSampleAt rotation_feature_005_000 zero_rotation_time_samples_005_rel_000
        rw [List.find?_cons_of_pos _ (by simp)]
        rfl
      rw [this]
      simp [h0]
    · have : findSampleAt (rotation_feature_005_000 ageRange refRel005) t =
          some (get_inverse (refRel005 t)) := by
        unfold findSampleAt rotation_feature_005_000 zero_rotation_time_samples_005_rel_000
        rw [List.find?_cons_of_neg _ (by simp [Ne.symm ht0]),
          find?_sample_in_zero_map refRel005 ageRange t ht]
        rfl
      rw [this]
      simp only [Option.map_some']
      rw [get_inverse, horth t ht]

/-- Witness for C5: one untouched plate-circuit feature, two ages, and the
identity as the external reference-to-bookkeeping rotation. -/
theorem zeroed_rotation_state_identity_witness :
    refRelAnchor (zeroedRotationFeatures [⟨0, 701, []⟩] [10, 20] (fun _ => 1))
        (fun _ => 1) 0 = some 1 ∧
    ∀ t ∈ ([10, 20] : List ℚ),
      refRelAnchor (zeroedRotationFeatures [⟨0, 701, []⟩] [10, 20] (fun _ => 1))
        (fun _ => 1) t = some 1 :=
  zeroed_rotation_state_identity [⟨0, 701, []⟩] [10, 20] (fun _ => 1) rfl
    (by simp)

/-! ## C2: distributed dispatch partition -/

theorem modifyIdx_length {β : Type _} (g : List β → List β) :
    ∀ (j : ℕ) (ls : List (List β)), (modifyIdx g j ls).length = ls.length := by
  intro j ls
  induction ls generalizing j with
  | nil => cases j <;> rfl
  | cons l ls ih =>
    cases j with
    | zero => rfl
    | succ n => show (l :: modifyIdx g n ls).length = _; simp [ih n]

theorem appendEach_length {β : Type _} :
    ∀ (as : List β) (j : ℕ) (ls : List (List β)),
      (appendEach as j ls).length = ls.length := by
  intro as
  induction as with
  | nil => intro j ls; rfl
  | cons a as ih =>
    intro j ls
    show (appendEach as (j + 1) (modifyIdx (· ++ [a]) j ls)).length = _
    rw [ih (j + 1) _, modifyIdx_length]

theorem modifyIdx_getElem? {β : Type _} (g : List β → List β) :
    ∀ (j : ℕ) (ls : List (List β)) (r : ℕ),
      (modifyIdx g j ls)[r]? = if r = j then (ls[r]?).map g else ls[r]? := by
  intro j ls
  induction ls generalizing j with
  | nil => intro r; cases j <;> simp [modifyIdx]
  | cons l ls ih =>
    intro r
    cases j with
    | zero =>
      cases r with
      | zero => simp [modifyIdx]
      | succ m => simp [modifyIdx]
    | succ n =>
      cases r with
      | zero => simp [modifyIdx]
      | succ m =>
        show (l :: modifyIdx g n ls)[m + 1]? = _
        rw [List.getElem?_cons_succ, List.getElem?_cons_succ, ih n m]
        by_cases hmn : m = n
        · rw [if_pos hmn, if_pos (by omega)]
        · rw [if_neg hmn, if_neg (by omega)]

theorem appendEach_getElem?_length {β : Type _} :
    ∀ (as : List β) (j : ℕ) (ls : List (List β)) (r : ℕ),
      ((appendEach as j ls)[r]?).map List.length =
        (ls[r]?).map (fun l => l.length + if j ≤ r ∧ r < j + as.length then 1 else 0) := by
  intro as
  induction as with
  | nil =>
    intro j ls r
    show (ls[r]?).map List.length = _
    cases h : ls[r]? with
    | none => rfl
    | some l =>
      have : ¬(j ≤ r ∧ r < j + ([] : List β).length) := by
        simp only [List.length_nil]
        omega
      simp [this]
  | cons a as ih =>
    intro j ls r
    show ((appendEach as (j + 1) (modifyIdx (· ++ [a]) j ls))[r]?).map List.length = _
    rw [ih (j + 1) _ r, modifyIdx_getElem?]
    by_cases hrj : r = j
    · subst hrj
      rw [if_pos rfl]
      cases h : ls[r]? with
      | none => rfl
      | some l =>
        simp only [Option.map_some']
        have h1 : r ≤ r ∧ r < r + (a :: as).length := by
          constructor
          · exact le_refl r
          · simp
        have h2 : ¬(r + 1 ≤ r ∧ r < r + 1 + as.length) := by omega
        rw [if_pos h1, if_neg h2]
        simp
    · rw [if_neg hrj]
      cases h : ls[r]? with
      | none => rfl
      | some l =>
        simp only [Option.map_some']
        have : (j + 1 ≤ r ∧ r < j + 1 + as.length) ↔
            (j ≤ r ∧ r < j + (a :: as).length) := by
          simp only [List.length_cons]
          omega
        rw [if_congr this rfl rfl]

theorem modifyIdx_flatten_perm {β : Type _} (a : β) :
    ∀ (j : ℕ) (ls : List (List β)), j < ls.length →
      List.Perm (modifyIdx (· ++ [a]) j ls).flatten (a :: ls.flatten) := by
  intro j ls
  induction ls generalizing j with
  | nil => intro h; simp at h
  | cons l ls ih =>
    intro h
    cases j with
    | zero =>
      show ((l ++ [a]) :: ls).flatten.Perm _
      rw [List.flatten_cons, List.flatten_cons, List.append_assoc]
      show (l ++ (a :: ls.flatten)).Perm (a :: (l ++ ls.flatten))
      exact List.perm_middle
    | succ n =>
      show (l :: modifyIdx (· ++ [a]) n ls).flatten.Perm _
      rw [List.flatten_cons, List.flatten_cons]
      have hn : n < ls.length := by simpa using h
      exact (List.Perm.append_left l (ih n hn)).trans List.perm_middle

theorem appendEach_flatten_perm {β : Type _} :
    ∀ (as : List β) (j : ℕ) (ls : List (List β)), j + as.length ≤ ls.length →
      List.Perm (appendEach as j ls).flatten (as ++ ls.flatten) := by
  intro as
  induction as with
  | nil => intro j ls _; simp [appendEach]
  | cons a as ih =>
    intro j ls h
    show (appendEach as (j + 1) (modifyIdx (· ++ [a]) j ls)).flatten.Perm _
    have h1 : (j + 1) + as.length ≤ (modifyIdx (· ++ [a]) j ls).length := by
      rw [modifyIdx_length]
      simp only [List.length_cons] at h
      omega
    have h2 : j < ls.length := by
      simp only [List.length_cons] at h
      omega
    refine ((ih (j + 1) _ h1).trans ?_)
    refine (List.Perm.append_left as (modifyIdx_flatten_perm a j ls h2)).trans ?_
    show (as ++ (a :: ls.flatten)).Perm ((a :: as) ++ ls.flatten)
    exact List.perm_middle

theorem base_flatten {α : Type _} (xs : List α) (num : ℕ) :
    ∀ (k : ℕ),
      ((List.range k).map (fun r => (xs.drop (r * num)).take num)).flatten =
        xs.take (k * num) := by
  intro k
  induction k with
  | zero => simp
  | succ k ih =>
    rw [List.range_succ, List.map_append, List.flatten_append, ih]
    show _ ++ ((xs.drop (k * num)).take num ++ []) = _
    rw [List.append_nil, ← List.take_add, Nat.succ_mul]

/-- C2: for every starting-vector list and process count `P >= 1`, the
mpi4py dispatch partitions the list into exactly `P` rank sub-lists whose
sizes are `N / P` plus one extra for the first `N mod P` ranks (so sizes sum
to `N` and differ by at most one, and when `P > N` the highest ranks get
empty partitions); gathering and flattening by rank returns a permutation
of the original list (exactly `N` results, none dropped or duplicated), and
mapping any per-trial optimisation over the partitions yields exactly `N`
results after the flatten (`Optimised_APM.py` lines 283-324 and 458-471). -/
theorem scatter_gather_partition_exact {α β : Type} (xs : List α) (P : ℕ)
    (f : α → β) (hP : 1 ≤ P) :
    (scatterPartition xs P).length = P ∧
    (∀ (r : ℕ) (part : List α), (scatterPartition xs P)[r]? = some part →
      part.length = xs.length / P + if r < xs.length % P then 1 else 0) ∧
    List.Perm (gatherFlatten (scatterPartition xs P)) xs ∧
    (gatherFlatten ((scatterPartition xs P).map (List.map f))).length = xs.length := by
  have main : (scatterPartition xs P).length = P ∧
      (∀ (r : ℕ) (part : List α), (scatterPartition xs P)[r]? = some part →
        part.length = xs.length / P + if r < xs.length % P then 1 else 0) ∧
      List.Perm (gatherFlatten (scatterPartition xs P)) xs := by
    by_cases hlt : xs.length < P
    · have hdiv : xs.length / P = 0 := Nat.div_eq_of_lt hlt
      have hmod : xs.length % P = xs.length := Nat.mod_eq_of_lt hlt
      have hsp : scatterPartition xs P =
          xs.map (fun a => [a]) ++ List.replicate (P - xs.length) [] := by
        unfold scatterPartition
        rw [if_pos hlt]
      refine ⟨?_, ?_, ?_⟩
      · rw [hsp, List.length_append, List.length_map, List.length_replicate]
        omega
      · intro r part hpart
        rw [hsp, List.getElem?_append] at hpart
        rw [hdiv, hmod]
        by_cases hr : r < xs.length
        · rw [if_pos (by rwa [List.length_map]), List.getElem?_map] at hpart
          rw [List.getElem?_eq_getElem hr] at hpart
          have := Option.some_inj.mp hpart
          rw [← this, if_pos hr]
          rfl
        · rw [if_neg (by rw [List.length_map]; exact hr),
            List.length_map, List.getElem?_replicate] at hpart
          by_cases hrP : r - xs.length < P - xs.length
          · rw [if_pos hrP] at hpart
            have := Option.some_inj.mp hpart
            rw [← this, if_neg hr]
            rfl
          · rw [if_neg hrP] at hpart
            cases hpart
      · have hflat1 : ∀ (l : List α), (l.map (fun a => [a])).flatten = l := by
          intro l
          induction l with
          | nil => rfl
          | cons x l ih => simp [ih]
        have hflat2 : ∀ (n : ℕ), (List.replicate n ([] : List α)).flatten = [] := by
          intro n
          induction n with
          | zero => rfl
          | succ n ih => simp [List.replicate_succ, ih]
        show (scatterPartition xs P).flatten.Perm xs
        rw [hsp, List.flatten_append, hflat1, hflat2, List.append_nil]
    · have hPpos : 0 < P := hP
      set num := xs.length / P with hnum
      have hPnum : P * num ≤ xs.length := Nat.mul_div_le ..
      have hrem : xs.length - P * num = xs.length % P := by
        have h := Nat.div_add_mod xs.length P
        rw [hnum]
        omega
      have hsp : scatterPartition xs P =
          appendEach (xs.drop (P * num)) 0
            ((List.range P).map (fun r => (xs.drop (r * num)).take num)) := by
        unfold scatterPartition
        rw [if_neg hlt]
      have hbaseLen :
          ((List.range P).map (fun r => (xs.drop (r * num)).take num)).length = P := by
        rw [List.length_map, List.length_range]
      have hextraLen : (xs.drop (P * num)).length = xs.length % P := by
        rw [List.length_drop, hrem]
      refine ⟨?_, ?_, ?_⟩
      · rw [hsp, appendEach_length, hbaseLen]
      · intro r part hpart
        have hlen := congrArg (Option.map List.length) hpart
        rw [hsp, appendEach_getElem?_length, hextraLen] at hlen
        by_cases hr : r < P
        · rw [List.getElem?_map,
            List.getElem?_eq_getElem (by rwa [List.length_range]),
            List.getElem_range] at hlen
          have htake : ((xs.drop (r * num)).take num).length = num := by
            rw [List.length_take, List.length_drop]
            have h1 : (r + 1) * num ≤ P * num :=
              Nat.mul_le_mul_right num (by omega)
            have h3 : (r + 1) * num = r * num + num := by ring
            omega
          simp only [Option.map_some'] at hlen
          have heq := Option.some_inj.mp hlen
          rw [htake] at heq
          rw [← heq, hnum]
          have hiff : (0 ≤ r ∧ r < 0 + xs.length % P) ↔ (r < xs.length % P) := by omega
          rw [if_congr hiff rfl rfl]
        · have hnone :
              ((List.range P).map (fun s => (xs.drop (s * num)).take num))[r]? = none :=
            List.getElem?_eq_none (by rw [hbaseLen]; omega)
          rw [hnone] at hlen
          cases hlen
      · show ((scatterPartition xs P)).flatten.Perm xs
        rw [hsp]
        have hmodlt : xs.length % P < P := Nat.mod_lt _ hPpos
        have happ := appendEach_flatten_perm (xs.drop (P * num)) 0
          ((List.range P).map (fun r => (xs.drop (r * num)).take num))
          (by rw [hbaseLen, hextraLen]; omega)
        refine happ.trans ?_
        rw [base_flatten xs num P]
        refine (List.perm_append_comm).trans ?_
        rw [List.take_append_drop]
  obtain ⟨h1, h2, h3⟩ := main
  refine ⟨h1, h2, h3, ?_⟩
  show ((scatterPartition xs P).map (List.map f)).flatten.length = xs.length
  rw [← List.map_flatten, List.length_map]
  exact h3.length_eq

/-- Witness for C2: five starting vectors over two ranks with a successor
map as the per-trial computation. -/
theorem scatter_gather_partition_exact_witness :
    (scatterPartition [10, 11, 12, 13, 14] 2).length = 2 ∧
    List.Perm (gatherFlatten (scatterPartition [10, 11, 12, 13, 14] 2))
      [10, 11, 12, 13, 14] ∧
    (gatherFlatten ((scatterPartition [10, 11, 12, 13, 14] 2).map
      (List.map Nat.succ))).length = ([10, 11, 12, 13, 14] : List ℕ).length :=
  ⟨(scatter_gather_partition_exact [10, 11, 12, 13, 14] 2 Nat.succ (by omega)).1,
   (scatter_gather_partition_exact [10, 11, 12, 13, 14] 2 Nat.succ (by omega)).2.2.1,
   (scatter_gather_partition_exact [10, 11, 12, 13, 14] 2 Nat.succ (by omega)).2.2.2⟩

/-! ## C8: search-radius expansion on a reference-plate switch -/

theorem sqrt_two_bounds : (1.4142135 : ℝ) < Real.sqrt 2 ∧ Real.sqrt 2 < 1.4142136 := by
  have hs := Real.sq_sqrt (show (0:ℝ) ≤ 2 by norm_num)
  have hnn := Real.sqrt_nonneg 2
  constructor
  · nlinarith [hs, hnn, sq_nonneg (Real.sqrt 2 - 1.4142135)]
  · nlinarith [hs, hnn, sq_nonneg (Real.sqrt 2 - 1.4142136)]

theorem sqrt_three_bounds : (1.7320508 : ℝ) < Real.sqrt 3 ∧ Real.sqrt 3 < 1.7320509 := by
  have hs := Real.sq_sqrt (show (0:ℝ) ≤ 3 by norm_num)
  have hnn := Real.sqrt_nonneg 3
  constructor
  · nlinarith [hs, hnn, sq_nonneg (Real.sqrt 3 - 1.7320508)]
  · nlinarith [hs, hnn, sq_nonneg (Real.sqrt 3 - 1.7320509)]

/-- Value of the spherical-cap scaling at the configured radii: with
`search_radius = 60` and `models = 100`, the code computes
`int((1 - cos(45 deg)) / (1 - cos(30 deg)) * 100 + 0.5) = 219`. -/
theorem scaledModels_at_config : scaledModels 90 60 100 = 219 := by
  unfold scaledModels
  rw [show (0.5:ℝ) * ((90:ℝ) * Real.pi / 180) = Real.pi / 4 by ring,
    show (0.5:ℝ) * ((60:ℝ) * Real.pi / 180) = Real.pi / 6 by ring,
    Real.cos_pi_div_four, Real.cos_pi_div_six]
  obtain ⟨h2a, h2b⟩ := sqrt_two_bounds
  obtain ⟨h3a, h3b⟩ := sqrt_three_bounds
  have hden : (0:ℝ) < 1 - Real.sqrt 3 / 2 := by nlinarith
  have hq1 : (2.18618:ℝ) ≤ (1 - Real.sqrt 2 / 2) / (1 - Real.sqrt 3 / 2) := by
    rw [le_div_iff₀ hden]
    nlinarith
  have hq2 : (1 - Real.sqrt 2 / 2) / (1 - Real.sqrt 3 / 2) < (2.1862:ℝ) := by
    rw [div_lt_iff₀ hden]
    nlinarith
  rw [Int.floor_eq_iff]
  constructor
  · push_cast
    nlinarith
  · push_cast
    nlinarith

/-- C8 (counterexample): at the inputs named by the claim
(`search_radius = 60`, `models = 100`, a reference-plate switch with the
expansion rule active), the scaled model count is not 220: the code
computes `int(2.18618... * 100 + 0.5) = 219` (`Optimised_APM.py` lines
238-256). -/
theorem expanded_model_count_not_220 :
    (stepSearchParams true 1 "Initial" 101 701 60 100).2 ≠ 220 := by
  unfold stepSearchParams
  rw [if_pos ⟨rfl, by norm_num, rfl, by norm_num⟩]
  show scaledModels 90 60 100 ≠ 220
  rw [scaledModels_at_config]
  decide

/-- C8 (amended): when the expansion rule applies (config switch on,
non-first step, `'Initial'` search) and the reference plate id differs from
the previous step, the search radius is widened to 90 degrees and the model
count is scaled by the spherical-cap-area quotient
`(1 - cos(r_new/2))/(1 - cos(r_old/2))`; with `search_radius = 60` and
`models = 100` this gives `int(ratio * 100 + 0.5) = 219` models. -/
theorem expanded_search_params_on_switch :
    stepSearchParams true 1 "Initial" 101 701 60 100 =
      (90, scaledModels 90 60 100) ∧
    stepSearchParams true 1 "Initial" 101 701 60 100 = (90, 219) := by
  have h : stepSearchParams true 1 "Initial" 101 701 60 100 =
      (90, scaledModels 90 60 100) := by
    unfold stepSearchParams
    rw [if_pos ⟨rfl, by norm_num, rfl, by norm_num⟩]
  exact ⟨h, by rw [h, scaledModels_at_config]⟩

end OptAPM
